import Mathlib

/-!
Verification of the typed HTTP header codec layer (`src/httpcommon/headers/date_based.rs`).

Raw header bytes are modelled as `List Nat` (one `Nat` per byte, < 256 for
real inputs), a raw field set as `List (List Nat)`, and decoded text as a
`List Nat` of Unicode code points.  The concrete codecs (`uint`, `Tm`,
`Expires`, `RetryAfter`) are translated from the Rust source; the library
pieces that the source calls but that are not part of this repository
(`std::str::from_utf8`, `from_str::<uint>`, the `time` crate's
`strptime`/`strftime`/`to_utc`, and the `require_single_field!` macro from
the headers module) are modelled from the specification, as documented on
each definition.
-/

/-- `true` iff the code point is an ASCII decimal digit. -/
def isDigit (c : Nat) : Bool := 48 ≤ c && c ≤ 57

/-- `true` iff the code point is an ASCII letter. -/
def isAlpha (c : Nat) : Bool := (65 ≤ c && c ≤ 90) || (97 ≤ c && c ≤ 122)

/-- Code points of a string literal, used to write ASCII byte strings. -/
def str (s : String) : List Nat := s.data.map Char.toNat

/-- `true` iff the byte is a UTF-8 continuation byte (`0x80`–`0xBF`). -/
def isCont (b : Nat) : Bool := 128 ≤ b && b ≤ 191

/-- Decode one multi-byte UTF-8 sequence whose first byte `b1` is not
ASCII, returning the code point and the remaining bytes; rejects
malformed, overlong, surrogate and out-of-range sequences. -/
def utf8StepMulti (b1 : Nat) (t1 : List Nat) : Option (Nat × List Nat) :=
  if 194 ≤ b1 && b1 ≤ 223 then
    match t1 with
    | b2 :: t2 =>
      if isCont b2 then some ((b1 - 192)*64 + (b2 - 128), t2)
      else none
    | [] => none
  else if 224 ≤ b1 && b1 ≤ 239 then
    match t1 with
    | b2 :: b3 :: t3 =>
      if isCont b2 && isCont b3 then
        let cp := (b1 - 224)*4096 + (b2 - 128)*64 + (b3 - 128)
        if 2048 ≤ cp && (cp < 55296 || 57343 < cp) then some (cp, t3)
        else none
      else none
    | _ => none
  else if 240 ≤ b1 && b1 ≤ 244 then
    match t1 with
    | b2 :: b3 :: b4 :: t4 =>
      if isCont b2 && isCont b3 && isCont b4 then
        let cp := (b1 - 240)*262144 + (b2 - 128)*4096 + (b3 - 128)*64 + (b4 - 128)
        if 65536 ≤ cp && cp ≤ 1114111 then some (cp, t4)
        else none
      else none
    | _ => none
  else none

/-- Decode one UTF-8 scalar from the front of the input. -/
def utf8Step : List Nat → Option (Nat × List Nat)
  | [] => none
  | b1 :: t1 => if b1 ≤ 127 then some (b1, t1) else utf8StepMulti b1 t1

/-- Decode a whole byte list scalar by scalar; the fuel argument is
sufficient whenever it bounds the input length. -/
def utf8DecodeAux : Nat → List Nat → Option (List Nat)
  | _, [] => some []
  | 0, _ :: _ => none
  | fuel+1, b1 :: t1 =>
    match utf8Step (b1 :: t1) with
    | none => none
    | some (cp, rest) => (utf8DecodeAux fuel rest).map (cp :: ·)

/-- Modelled from the spec: `std::str::from_utf8` ("validate input is valid
UTF-8 text") is not part of this repository.  Decodes a byte sequence into
its code points, rejecting malformed, overlong, surrogate and out-of-range
sequences. -/
def utf8Decode (l : List Nat) : Option (List Nat) := utf8DecodeAux l.length l

/-- Base-10 value of a digit string (each element an ASCII digit). -/
def digitsVal (s : List Nat) : Nat := s.foldl (fun a c => a*10 + (c - 48)) 0

/-- Decimal digits, most significant first (empty for `0`); the first
argument is fuel, sufficient whenever `n ≤ fuel`. -/
def natDigitsAux : Nat → Nat → List Nat
  | 0, _ => []
  | _+1, 0 => []
  | fuel+1, n+1 => natDigitsAux fuel ((n+1)/10) ++ [48 + (n+1) % 10]

/-- Decimal digits of `n`, most significant first (empty for `0`). -/
def natDigits (n : Nat) : List Nat := natDigitsAux n n

/-- Canonical decimal rendering of a natural number. -/
def uintToDec (n : Nat) : List Nat := if n = 0 then [48] else natDigits n

/-- Width of the Rust `uint` type (64-bit target). -/
def uintBound : Nat := 2^64

/-- Modelled from the spec: `from_str::<uint>` (std, not part of this
repository).  "Parse as base-10 integer ... reject any non-digit
characters, leading `+`, or empty string; reject values that over/underflow
the target width." -/
def parseUintStr (s : List Nat) : Option Nat :=
  if s.isEmpty then none
  else if s.all isDigit then
    if digitsVal s < uintBound then some (digitsVal s) else none
  else none

/-- The broken-down time type of the `time` crate, restricted to the fields
the spec's grammars mention: civil date and time of day, parsed weekday,
and the zone offset in seconds east of UTC.  Months are 1–12, years are
proleptic-Gregorian calendar years, weekdays are 0 (Sunday) – 6
(Saturday). -/
structure Tm where
  tm_sec : Nat
  tm_min : Nat
  tm_hour : Nat
  tm_mday : Nat
  tm_mon : Nat
  tm_year : Int
  tm_wday : Nat
  tm_gmtoff : Int
deriving DecidableEq, Repr

/-- Abbreviated weekday names, value = weekday number. -/
def wdayTable : List (List Nat × Nat) :=
  [(str "Sun", 0), (str "Mon", 1), (str "Tue", 2), (str "Wed", 3),
   (str "Thu", 4), (str "Fri", 5), (str "Sat", 6)]

/-- Full weekday names for the RFC 850 grammar. -/
def wdayFullTable : List (List Nat × Nat) :=
  [(str "Sunday", 0), (str "Monday", 1), (str "Tuesday", 2), (str "Wednesday", 3),
   (str "Thursday", 4), (str "Friday", 5), (str "Saturday", 6)]

/-- Abbreviated month names, value = month number 1–12. -/
def monTable : List (List Nat × Nat) :=
  [(str "Jan", 1), (str "Feb", 2), (str "Mar", 3), (str "Apr", 4),
   (str "May", 5), (str "Jun", 6), (str "Jul", 7), (str "Aug", 8),
   (str "Sep", 9), (str "Oct", 10), (str "Nov", 11), (str "Dec", 12)]

/-- Abbreviated name of weekday `w` (0–6). -/
def wdayAbb (w : Nat) : List Nat := (wdayTable.getD w ([], 0)).1

/-- Abbreviated name of month `m` (1–12). -/
def monAbb (m : Nat) : List Nat := (monTable.getD (m-1) ([], 0)).1

/-- Consume an exact literal from the front of the input. -/
def takeLit : List Nat → List Nat → Option (List Nat)
  | [], s => some s
  | _ :: _, [] => none
  | l :: ls, c :: cs => if c = l then takeLit ls cs else none

/-- Consume exactly `k` ASCII digits, returning their base-10 value. -/
def parseDigitsAcc : Nat → Nat → List Nat → Option (Nat × List Nat)
  | 0, acc, s => some (acc, s)
  | _+1, _, [] => none
  | k+1, acc, c :: cs =>
    if isDigit c then parseDigitsAcc k (acc*10 + (c - 48)) cs else none

/-- Match the first table entry whose name is an initial segment of the
input; first match wins. -/
def parseName : List (List Nat × Nat) → List Nat → Option (Nat × List Nat)
  | [], _ => none
  | (nm, v) :: tl, s =>
    match takeLit nm s with
    | some rest => some (v, rest)
    | none => parseName tl s

/-- Parse `HH:MM:SS` (two digits each, no range check here). -/
def parseHMS (s : List Nat) : Option (Nat × Nat × Nat × List Nat) :=
  match parseDigitsAcc 2 0 s with
  | none => none
  | some (h, s1) =>
    match takeLit (str ":") s1 with
    | none => none
    | some s2 =>
      match parseDigitsAcc 2 0 s2 with
      | none => none
      | some (mi, s3) =>
        match takeLit (str ":") s3 with
        | none => none
        | some s4 =>
          match parseDigitsAcc 2 0 s4 with
          | none => none
          | some (sec, s5) => some (h, mi, sec, s5)

/-- Range checks shared by all grammars: day of month 1–31, hour ≤ 23,
minute and second ≤ 59. -/
def validDHMS (d h mi sec : Nat) : Bool :=
  1 ≤ d && d ≤ 31 && h ≤ 23 && mi ≤ 59 && sec ≤ 59

/-- Modelled from the spec (`time::strptime` is not part of this
repository): common core of the two RFC 822/1123 grammars,
`"Weekday, DD Mon YYYY HH:MM:SS"`, returning the parsed fields as a `Tm`
with zero offset together with the unconsumed input. -/
def parse1123Core (s : List Nat) : Option (Tm × List Nat) :=
  match parseName wdayTable s with
  | none => none
  | some (w, s1) =>
    match takeLit (str ", ") s1 with
    | none => none
    | some s2 =>
      match parseDigitsAcc 2 0 s2 with
      | none => none
      | some (d, s3) =>
        match takeLit (str " ") s3 with
        | none => none
        | some s4 =>
          match parseName monTable s4 with
          | none => none
          | some (mo, s5) =>
            match takeLit (str " ") s5 with
            | none => none
            | some s6 =>
              match parseDigitsAcc 4 0 s6 with
              | none => none
              | some (y, s7) =>
                match takeLit (str " ") s7 with
                | none => none
                | some s8 =>
                  match parseHMS s8 with
                  | none => none
                  | some (h, mi, sec, s9) =>
                    if validDHMS d h mi sec then
                      some (⟨sec, mi, h, d, mo, (y : Int), w, 0⟩, s9)
                    else none

/-- Modelled from the spec: grammar 1, RFC 822/1123 with a literal zone
token — a nonempty run of letters ending the input; "only the literal GMT
is meaningfully honored; other zone names are accepted lexically but not
semantically interpreted", so every zone token leaves the offset at 0. -/
def parse1123Z (s : List Nat) : Option Tm :=
  match parse1123Core s with
  | some (t, 32 :: z) => if z.isEmpty then none else if z.all isAlpha then some t else none
  | _ => none

/-- Modelled from the spec: grammar 2, RFC 822/1123 with a numeric
`±HHMM` offset ending the input. -/
def parse1123z (s : List Nat) : Option Tm :=
  match parse1123Core s with
  | some (t, 32 :: sign :: ds) =>
    if sign = 43 || sign = 45 then
      match parseDigitsAcc 2 0 ds with
      | some (hh, ds2) =>
        match parseDigitsAcc 2 0 ds2 with
        | some (mm, []) =>
          let off : Int := (hh : Int)*3600 + (mm : Int)*60
          some { t with tm_gmtoff := if sign = 45 then -off else off }
        | _ => none
      | none => none
    else none
  | _ => none

/-- Modelled from the spec: grammar 3, obsolete RFC 850/1036,
`"Full-Weekday, DD-Mon-YY HH:MM:SS ZONE"` with a two-digit year.  The
windowing pivot chosen is the POSIX one: 69–99 map to 1969–1999 and
00–68 map to 2000–2068. -/
def parse850 (s : List Nat) : Option Tm :=
  match parseName wdayFullTable s with
  | none => none
  | some (w, s1) =>
    match takeLit (str ", ") s1 with
    | none => none
    | some s2 =>
      match parseDigitsAcc 2 0 s2 with
      | none => none
      | some (d, s3) =>
        match takeLit (str "-") s3 with
        | none => none
        | some s4 =>
          match parseName monTable s4 with
          | none => none
          | some (mo, s5) =>
            match takeLit (str "-") s5 with
            | none => none
            | some s6 =>
              match parseDigitsAcc 2 0 s6 with
              | none => none
              | some (yy, s7) =>
                match takeLit (str " ") s7 with
                | none => none
                | some s8 =>
                  match parseHMS s8 with
                  | none => none
                  | some (h, mi, sec, s9) =>
                    match s9 with
                    | 32 :: z =>
                      if z.isEmpty then none
                      else if z.all isAlpha && validDHMS d h mi sec then
                        let y : Nat := if 69 ≤ yy then 1900 + yy else 2000 + yy
                        some ⟨sec, mi, h, d, mo, (y : Int), w, 0⟩
                      else none
                    | _ => none

/-- Modelled from the spec: grammar 4, ANSI C `asctime`,
`"Weekday Mon DD HH:MM:SS YYYY"`, no zone, offset 0 (UTC assumed). -/
def parseAsctime (s : List Nat) : Option Tm :=
  match parseName wdayTable s with
  | none => none
  | some (w, s1) =>
    match takeLit (str " ") s1 with
    | none => none
    | some s2 =>
      match parseName monTable s2 with
      | none => none
      | some (mo, s3) =>
        match takeLit (str " ") s3 with
        | none => none
        | some s4 =>
          match parseDigitsAcc 2 0 s4 with
          | none => none
          | some (d, s5) =>
            match takeLit (str " ") s5 with
            | none => none
            | some s6 =>
              match parseHMS s6 with
              | none => none
              | some (h, mi, sec, s7) =>
                match takeLit (str " ") s7 with
                | none => none
                | some s8 =>
                  match parseDigitsAcc 4 0 s8 with
                  | some (y, []) =>
                    if validDHMS d h mi sec then
                      some ⟨sec, mi, h, d, mo, (y : Int), w, 0⟩
                    else none
                  | _ => none

/-- Days from 1 March of year-of-era 0 to 1 March of year-of-era `y`
(Gregorian, era = 400 years). -/
def daysUpTo (y : Nat) : Nat := 365*y + y/4 - y/100

/-- Year of era (0–399) containing day-of-era `doe` (0–146096): computed
as `doe/365` capped at 399, corrected down by one when that year starts
after `doe`. -/
def yoeOf (doe : Nat) : Nat :=
  let y1 := if doe/365 ≤ 399 then doe/365 else 399
  if daysUpTo y1 ≤ doe then y1 else y1 - 1

/-- Era (400-year Gregorian cycle) of a day count relative to 1970-01-01,
after shifting the origin to 0000-03-01. -/
def eraOf (z : Int) : Int := (z + 719468) / 146097

/-- Day of era (0–146096) of a day count relative to 1970-01-01. -/
def doeOf (z : Int) : Nat := ((z + 719468) % 146097).toNat

/-- Day of (March-based) year within the era. -/
def doyOfDoe (doe : Nat) : Nat := doe - daysUpTo (yoeOf doe)

/-- Shifted month index 0 (March) – 11 (February) of a day of year. -/
def mpOf (doy : Nat) : Nat := (5*doy + 2)/153

/-- Day of month (1–31) of a day of year. -/
def mdayOfDoy (doy : Nat) : Nat := doy - (153*(mpOf doy) + 2)/5 + 1

/-- Civil month (1–12) of a day of year. -/
def monOfDoy (doy : Nat) : Nat := if mpOf doy < 10 then mpOf doy + 3 else mpOf doy - 9

/-- Civil date (year, month 1–12, day 1–31) of a day count relative to
1970-01-01 (proleptic Gregorian calendar, Hinnant-style era split). -/
def civilFromDays (z : Int) : Int × Nat × Nat :=
  let doy := doyOfDoe (doeOf z)
  (eraOf z * 400 + (yoeOf (doeOf z) : Int) + (if monOfDoy doy ≤ 2 then 1 else 0),
   monOfDoy doy, mdayOfDoy doy)

/-- Day count relative to 1970-01-01 of a civil date. -/
def daysFromCivil (y : Int) (m d : Nat) : Int :=
  let yy := if m ≤ 2 then y - 1 else y
  let era := yy / 400
  let yoe := (yy - era*400).toNat
  let mp := if 2 < m then m - 3 else m + 9
  let doy := (153*mp + 2)/5 + d - 1
  era*146097 + ((daysUpTo yoe + doy : Nat) : Int) - 719468

/-- Seconds since 1970-01-01T00:00:00Z denoted by a broken-down time:
its civil fields interpreted in the zone `tm_gmtoff` seconds east of
UTC.  This is the `to_timespec` view of a `Tm`. -/
def toInstant (t : Tm) : Int :=
  daysFromCivil t.tm_year t.tm_mon t.tm_mday * 86400
    + (3600*(t.tm_hour : Int) + 60*(t.tm_min : Int) + (t.tm_sec : Int))
    - t.tm_gmtoff

/-- Broken-down UTC time of an instant (seconds since the epoch); all
fields, including the weekday, are recomputed from the instant and the
offset is 0. -/
def civilFromInstant (i : Int) : Tm :=
  let days := i / 86400
  let sod := (i % 86400).toNat
  let ymd := civilFromDays days
  { tm_sec := sod % 60, tm_min := sod / 60 % 60, tm_hour := sod / 3600,
    tm_mday := ymd.2.2, tm_mon := ymd.2.1, tm_year := ymd.1,
    tm_wday := ((days + 4) % 7).toNat, tm_gmtoff := 0 }

/-- Modelled from the spec: the `time` crate's `Tm::to_utc` ("always
normalize to UTC"), i.e. the broken-down UTC form of the instant the
value denotes. -/
def Tm.to_utc (t : Tm) : Tm := civilFromInstant (toInstant t)

/-- Two-digit zero-padded decimal (full decimal for values ≥ 100). -/
def pad2 (n : Nat) : List Nat :=
  if n < 100 then [48 + n/10, 48 + n % 10] else uintToDec n

/-- Four-digit zero-padded decimal year (full decimal outside 0–9999). -/
def pad4 (y : Int) : List Nat :=
  if 0 ≤ y ∧ y ≤ 9999 then
    [48 + y.toNat/1000, 48 + y.toNat/100 % 10, 48 + y.toNat/10 % 10, 48 + y.toNat % 10]
  else if y < 0 then 45 :: uintToDec (-y).toNat
  else uintToDec y.toNat

/-- Modelled from the spec: `strftime` with the canonical pattern
`"%a, %d %b %Y %T GMT"` — grammar 1's canonical form
`"Weekday, DD Mon YYYY HH:MM:SS GMT"`. -/
def fmt1123 (t : Tm) : List Nat :=
  wdayAbb t.tm_wday ++ str ", " ++ pad2 t.tm_mday ++ str " " ++ monAbb t.tm_mon
    ++ str " " ++ pad4 t.tm_year ++ str " " ++ pad2 t.tm_hour ++ str ":"
    ++ pad2 t.tm_min ++ str ":" ++ pad2 t.tm_sec ++ str " GMT"

/-- Modelled from the spec: the `require_single_field!` macro of the
headers module (not under `src/`): "succeeds (returns the one
byte-sequence) iff the set has exactly one element". -/
def require_single_field : List (List Nat) → Option (List Nat)
  | [f] => some f
  | _ => none

/-- `impl Header for Tm`, `parse_header`: single field, UTF-8 validation,
then the four grammars in order, first match wins. -/
def Tm.parse_header (raw : List (List Nat)) : Option Tm :=
  match require_single_field raw with
  | none => none
  | some field =>
    match utf8Decode field with
    | none => none
    | some s =>
      match parse1123Z s with
      | some t => some t
      | none =>
        match parse1123z s with
        | some t => some t
        | none =>
          match parse850 s with
          | some t => some t
          | none => parseAsctime s

/-- `impl Header for Tm`, `fmt_header`: `self.to_utc().strftime("%a, %d %b %Y %T GMT")`. -/
def Tm.fmt_header (t : Tm) : List Nat := fmt1123 t.to_utc

/-- `impl Header for uint`, `parse_header`: single field, UTF-8
validation, then `from_str::<uint>`. -/
def uint_parse_header (raw : List (List Nat)) : Option Nat :=
  match require_single_field raw with
  | none => none
  | some field =>
    match utf8Decode field with
    | none => none
    | some s => parseUintStr s

/-- `impl Header for uint`, `fmt_header`: decimal rendering. -/
def uint_fmt_header (n : Nat) : List Nat := uintToDec n

/-- The data type for the `expires` header. -/
inductive Expires where
  /-- The Expires header had an invalid format, interpreted as "in the past". -/
  | Past : Expires
  /-- A valid Expires header date. -/
  | ExpiresDate : Tm → Expires
deriving DecidableEq, Repr

/-- `impl Header for Expires`, `parse_header`: single-field check, then a
`Tm` parse of the same raw set; a failed date parse yields `Past`, never
absence. -/
def Expires.parse_header (raw : List (List Nat)) : Option Expires :=
  match require_single_field raw with
  | none => none
  | some _ =>
    match Tm.parse_header raw with
    | some tm => some (Expires.ExpiresDate tm)
    | none => some Expires.Past

/-- `impl Header for Expires`, `fmt_header`: `Past` writes `"0"`, a date
writes the date codec's canonical bytes. -/
def Expires.fmt_header : Expires → List Nat
  | Expires.Past => str "0"
  | Expires.ExpiresDate tm => tm.fmt_header

/-- The data type for the `Retry-After` header. -/
inductive RetryAfter where
  /-- A valid Retry-After header date. -/
  | DateRA : Tm → RetryAfter
  /-- A valid Retry-After header delta value. -/
  | DeltaRA : Nat → RetryAfter
deriving DecidableEq, Repr

/-- `impl Header for RetryAfter`, `parse_header`: single-field check, a
`Tm` parse of the raw set first, then a `uint` parse of the same raw set,
absent if both fail. -/
def RetryAfter.parse_header (raw : List (List Nat)) : Option RetryAfter :=
  match require_single_field raw with
  | none => none
  | some _ =>
    match Tm.parse_header raw with
    | some tm => some (RetryAfter.DateRA tm)
    | none =>
      match uint_parse_header raw with
      | some delta => some (RetryAfter.DeltaRA delta)
      | none => none

/-- `impl Header for RetryAfter`, `fmt_header`: a delta writes the integer
codec's bytes, a date the date codec's bytes. -/
def RetryAfter.fmt_header : RetryAfter → List Nat
  | RetryAfter.DateRA tm => tm.fmt_header
  | RetryAfter.DeltaRA delta => uint_fmt_header delta

/-! ### Calendar facts -/

theorem yoe_facts (doe : Nat) (h : doe < 146097) :
    daysUpTo (yoeOf doe) ≤ doe ∧ doe - daysUpTo (yoeOf doe) ≤ 365 ∧ yoeOf doe ≤ 399 := by
  unfold yoeOf daysUpTo
  simp only []
  split <;> split <;> omega

theorem doyOfDoe_facts (doe : Nat) (h : doe < 146097) :
    daysUpTo (yoeOf doe) + doyOfDoe doe = doe ∧ doyOfDoe doe ≤ 365 := by
  have := yoe_facts doe h
  unfold doyOfDoe
  omega

/-- Decidable form of the day-of-year / month / day-of-month facts. -/
def doyChk (doy : Nat) : Bool :=
  decide (mpOf doy ≤ 11 ∧ (153*(mpOf doy) + 2)/5 ≤ doy ∧
    1 ≤ mdayOfDoy doy ∧ mdayOfDoy doy ≤ 31 ∧
    (153*(mpOf doy) + 2)/5 + (mdayOfDoy doy - 1) = doy ∧
    1 ≤ monOfDoy doy ∧ monOfDoy doy ≤ 12 ∧
    (if 2 < monOfDoy doy then monOfDoy doy - 3 else monOfDoy doy + 9) = mpOf doy ∧
    (monOfDoy doy ≤ 2 ↔ 306 ≤ doy))

set_option maxRecDepth 8000 in
theorem doyChk_all : ∀ doy, doy < 366 → doyChk doy = true := by decide

theorem doy_facts (doy : Nat) (h : doy ≤ 365) :
    mpOf doy ≤ 11 ∧ (153*(mpOf doy) + 2)/5 ≤ doy ∧
    1 ≤ mdayOfDoy doy ∧ mdayOfDoy doy ≤ 31 ∧
    (153*(mpOf doy) + 2)/5 + (mdayOfDoy doy - 1) = doy ∧
    1 ≤ monOfDoy doy ∧ monOfDoy doy ≤ 12 ∧
    (if 2 < monOfDoy doy then monOfDoy doy - 3 else monOfDoy doy + 9) = mpOf doy ∧
    (monOfDoy doy ≤ 2 ↔ 306 ≤ doy) := by
  have := doyChk_all doy (by omega)
  unfold doyChk at this
  exact of_decide_eq_true this

theorem era_doe (z : Int) :
    z + 719468 = 146097 * eraOf z + (doeOf z : Int) ∧ doeOf z < 146097 := by
  unfold eraOf doeOf
  omega

theorem civilFromDays_inv (z : Int) :
    daysFromCivil (civilFromDays z).1 (civilFromDays z).2.1 (civilFromDays z).2.2 = z ∧
    1 ≤ (civilFromDays z).2.2 ∧ (civilFromDays z).2.2 ≤ 31 ∧
    1 ≤ (civilFromDays z).2.1 ∧ (civilFromDays z).2.1 ≤ 12 := by
  obtain ⟨hz, hdoe⟩ := era_doe z
  obtain ⟨hsum, hdoy⟩ := doyOfDoe_facts (doeOf z) hdoe
  have hyoe := (yoe_facts (doeOf z) hdoe).2.2
  obtain ⟨hmp, hmp5, hd1, hd31, hrec, hm1, hm12, hmpinv, hadj⟩ :=
    doy_facts (doyOfDoe (doeOf z)) hdoy
  unfold civilFromDays
  simp only []
  refine ⟨?_, hd1, hd31, hm1, hm12⟩
  unfold daysFromCivil
  simp only []
  rw [hmpinv]
  by_cases hm2 : monOfDoy (doyOfDoe (doeOf z)) ≤ 2
  · rw [if_pos hm2, if_pos hm2]
    have hyy : eraOf z * 400 + (yoeOf (doeOf z) : Int) + 1 - 1
        = 400 * eraOf z + (yoeOf (doeOf z) : Int) := by ring
    rw [hyy]
    have hera : (400 * eraOf z + (yoeOf (doeOf z) : Int)) / 400 = eraOf z := by omega
    rw [hera]
    have hyoe2 : (400 * eraOf z + (yoeOf (doeOf z) : Int) - eraOf z * 400).toNat
        = yoeOf (doeOf z) := by omega
    rw [hyoe2]
    have : daysUpTo (yoeOf (doeOf z))
        + ((153 * mpOf (doyOfDoe (doeOf z)) + 2) / 5 + mdayOfDoy (doyOfDoe (doeOf z)) - 1)
        = doeOf z := by omega
    rw [this]
    omega
  · rw [if_neg hm2, if_neg hm2]
    have hera : (eraOf z * 400 + (yoeOf (doeOf z) : Int) + 0) / 400 = eraOf z := by omega
    rw [hera]
    have hyoe2 : (eraOf z * 400 + (yoeOf (doeOf z) : Int) + 0 - eraOf z * 400).toNat
        = yoeOf (doeOf z) := by omega
    rw [hyoe2]
    have : daysUpTo (yoeOf (doeOf z))
        + ((153 * mpOf (doyOfDoe (doeOf z)) + 2) / 5 + mdayOfDoy (doyOfDoe (doeOf z)) - 1)
        = doeOf z := by omega
    rw [this]
    omega

theorem civilFromInstant_inv (i : Int) : toInstant (civilFromInstant i) = i := by
  obtain ⟨hd, -, -, -, -⟩ := civilFromDays_inv (i / 86400)
  unfold civilFromInstant toInstant
  simp only []
  rw [hd]
  omega


theorem civilFromInstant_year (i : Int) :
    (civilFromInstant i).tm_year
      = eraOf (i / 86400) * 400 + (yoeOf (doeOf (i / 86400)) : Int)
        + (if monOfDoy (doyOfDoe (doeOf (i / 86400))) ≤ 2 then 1 else 0) := rfl

theorem civilFromInstant_ranges (i : Int) (h0 : -62167219200 ≤ i) (h1 : i < 253402300800) :
    (civilFromInstant i).tm_sec ≤ 59 ∧ (civilFromInstant i).tm_min ≤ 59 ∧
    (civilFromInstant i).tm_hour ≤ 23 ∧
    1 ≤ (civilFromInstant i).tm_mday ∧ (civilFromInstant i).tm_mday ≤ 31 ∧
    1 ≤ (civilFromInstant i).tm_mon ∧ (civilFromInstant i).tm_mon ≤ 12 ∧
    0 ≤ (civilFromInstant i).tm_year ∧ (civilFromInstant i).tm_year ≤ 9999 ∧
    (civilFromInstant i).tm_wday ≤ 6 ∧ (civilFromInstant i).tm_gmtoff = 0 := by
  obtain ⟨-, hd1, hd31, hm1, hm12⟩ := civilFromDays_inv (i / 86400)
  obtain ⟨hz, hdoe⟩ := era_doe (i / 86400)
  obtain ⟨hsum, hdoy⟩ := doyOfDoe_facts (doeOf (i / 86400)) hdoe
  have hyoe := (yoe_facts (doeOf (i / 86400)) hdoe).2.2
  have hadj := (doy_facts (doyOfDoe (doeOf (i / 86400))) hdoy).2.2.2.2.2.2.2.2
  have hsec : (civilFromInstant i).tm_sec = (i % 86400).toNat % 60 := rfl
  have hmin : (civilFromInstant i).tm_min = (i % 86400).toNat / 60 % 60 := rfl
  have hhour : (civilFromInstant i).tm_hour = (i % 86400).toNat / 3600 := rfl
  have hmd : (civilFromInstant i).tm_mday = (civilFromDays (i / 86400)).2.2 := rfl
  have hmo : (civilFromInstant i).tm_mon = (civilFromDays (i / 86400)).2.1 := rfl
  have hwd : (civilFromInstant i).tm_wday = ((i / 86400 + 4) % 7).toNat := rfl
  have hoff : (civilFromInstant i).tm_gmtoff = 0 := rfl
  have hup : daysUpTo (yoeOf (doeOf (i / 86400)))
      = 365*(yoeOf (doeOf (i / 86400))) + (yoeOf (doeOf (i / 86400)))/4
        - (yoeOf (doeOf (i / 86400)))/100 := rfl
  have hub : daysUpTo (yoeOf (doeOf (i / 86400))) ≤ 145731 := by
    rw [hup]; omega
  have hlow : -719528 ≤ i / 86400 := by omega
  have hhigh : i / 86400 ≤ 2932896 := by omega
  rw [hsec, hmin, hhour, hmd, hmo, hwd, hoff, civilFromInstant_year]
  refine ⟨by omega, by omega, by omega, hd1, hd31, hm1, hm12, ?_, ?_, by omega, rfl⟩
  · split
    · next hsp =>
      rw [hadj] at hsp
      omega
    · next hsp =>
      rw [hadj] at hsp
      omega
  · split
    · next hsp =>
      rw [hadj] at hsp
      omega
    · next hsp =>
      rw [hadj] at hsp
      omega

/-! ### ASCII and UTF-8 facts -/

theorem utf8DecodeAux_ascii : ∀ fuel l, l.length ≤ fuel → (∀ c ∈ l, c ≤ 127) →
    utf8DecodeAux fuel l = some l := by
  intro fuel
  induction fuel with
  | zero =>
    intro l hl _
    match l with
    | [] => rfl
    | _ :: _ => simp at hl
  | succ fuel ih =>
    intro l hl h
    match l with
    | [] => rfl
    | b :: t =>
      have hb : b ≤ 127 := h b (by simp)
      have hstep : utf8Step (b :: t) = some (b, t) := by
        show (if b ≤ 127 then some (b, t) else utf8StepMulti b t) = some (b, t)
        rw [if_pos hb]
      rw [show utf8DecodeAux (fuel+1) (b :: t)
          = (match utf8Step (b :: t) with
             | none => none
             | some (cp, rest) => (utf8DecodeAux fuel rest).map (cp :: ·)) from rfl]
      rw [hstep]
      show (utf8DecodeAux fuel t).map (b :: ·) = some (b :: t)
      rw [ih t (by simp at hl; omega) (fun c hc => h c (by simp [hc]))]
      rfl

theorem utf8Decode_ascii (l : List Nat) (h : ∀ c ∈ l, c ≤ 127) : utf8Decode l = some l :=
  utf8DecodeAux_ascii l.length l (Nat.le_refl _) h

/-! ### Decimal rendering facts -/

theorem digitsVal_append_one (a : List Nat) (c : Nat) :
    digitsVal (a ++ [c]) = digitsVal a * 10 + (c - 48) := by
  unfold digitsVal
  rw [List.foldl_append]
  rfl

theorem natDigitsAux_digits : ∀ fuel n, ∀ c ∈ natDigitsAux fuel n, isDigit c = true := by
  intro fuel
  induction fuel with
  | zero => intro n c hc; simp [natDigitsAux] at hc
  | succ fuel ih =>
    intro n c hc
    match n with
    | 0 => simp [natDigitsAux] at hc
    | m+1 =>
      rw [show natDigitsAux (fuel+1) (m+1)
          = natDigitsAux fuel ((m+1)/10) ++ [48 + (m+1) % 10] from rfl] at hc
      rw [List.mem_append] at hc
      rcases hc with hc | hc
      · exact ih _ c hc
      · simp at hc
        subst hc
        simp [isDigit]
        omega

theorem natDigitsAux_val : ∀ fuel n, n ≤ fuel → digitsVal (natDigitsAux fuel n) = n := by
  intro fuel
  induction fuel with
  | zero => intro n h; interval_cases n; rfl
  | succ fuel ih =>
    intro n h
    match n with
    | 0 => rfl
    | m+1 =>
      rw [show natDigitsAux (fuel+1) (m+1)
          = natDigitsAux fuel ((m+1)/10) ++ [48 + (m+1) % 10] from rfl]
      rw [digitsVal_append_one]
      rw [ih ((m+1)/10) (by omega)]
      omega

theorem digitsVal_natDigits (n : Nat) : digitsVal (natDigits n) = n :=
  natDigitsAux_val n n (Nat.le_refl n)

theorem natDigits_ne_nil (n : Nat) (h : n ≠ 0) : natDigits n ≠ [] := by
  match n with
  | m+1 =>
    show natDigitsAux (m+1) (m+1) ≠ []
    rw [show natDigitsAux (m+1) (m+1)
        = natDigitsAux m ((m+1)/10) ++ [48 + (m+1) % 10] from rfl]
    simp

theorem uintToDec_digits (n : Nat) : ∀ c ∈ uintToDec n, isDigit c = true := by
  unfold uintToDec
  split
  · intro c hc
    simp at hc
    subst hc
    rfl
  · exact natDigitsAux_digits n n

theorem parseUintStr_uintToDec (n : Nat) (h : n < uintBound) :
    parseUintStr (uintToDec n) = some n := by
  have hval : digitsVal (uintToDec n) = n := by
    unfold uintToDec
    split
    · subst n; rfl
    · exact digitsVal_natDigits n
  have hne : uintToDec n ≠ [] := by
    unfold uintToDec
    split
    · simp
    · exact natDigits_ne_nil n (by omega)
  unfold parseUintStr
  rw [if_neg (by simpa using hne)]
  rw [if_pos (by rw [List.all_eq_true]; intro c hc; exact uintToDec_digits n c hc)]
  rw [hval]
  rw [if_pos h]

theorem uintToDec_ascii (n : Nat) : ∀ c ∈ uintToDec n, c ≤ 127 := by
  intro c hc
  have := uintToDec_digits n c hc
  unfold isDigit at this
  simp at this
  omega

/-! ### Printer–parser roundtrip on the canonical form -/

theorem takeLit_append (l r : List Nat) : takeLit l (l ++ r) = some r := by
  induction l with
  | nil => rfl
  | cons c cs ih =>
    show (if c = c then takeLit cs (cs ++ r) else none) = some r
    rw [if_pos rfl, ih]

theorem takeLit_ne_head (l c : Nat) (ls cs : List Nat) (h : c ≠ l) :
    takeLit (l :: ls) (c :: cs) = none := by
  show (if c = l then takeLit ls cs else none) = none
  rw [if_neg h]

theorem parseDigitsAcc_cons (k acc c : Nat) (cs : List Nat) :
    parseDigitsAcc (k+1) acc (c :: cs)
      = if isDigit c then parseDigitsAcc k (acc*10 + (c - 48)) cs else none := rfl

theorem pad2_eq (n : Nat) (h : n ≤ 99) : pad2 n = [48 + n/10, 48 + n % 10] := by
  unfold pad2
  rw [if_pos (by omega)]

theorem parse2_pad2 (n : Nat) (r : List Nat) (h : n ≤ 99) :
    parseDigitsAcc 2 0 (pad2 n ++ r) = some (n, r) := by
  rw [pad2_eq n h]
  show parseDigitsAcc 2 0 ((48 + n/10) :: (48 + n % 10) :: r) = some (n, r)
  have h1 : isDigit (48 + n/10) = true := by unfold isDigit; simp; omega
  have h2 : isDigit (48 + n % 10) = true := by unfold isDigit; simp; omega
  rw [parseDigitsAcc_cons, if_pos h1, parseDigitsAcc_cons, if_pos h2]
  show some ((0*10 + (48 + n/10 - 48))*10 + (48 + n % 10 - 48), r) = some (n, r)
  have e : (0*10 + (48 + n/10 - 48))*10 + (48 + n % 10 - 48) = n := by omega
  rw [e]

theorem pad4_eq (y : Int) (h0 : 0 ≤ y) (h1 : y ≤ 9999) :
    pad4 y = [48 + y.toNat/1000, 48 + y.toNat/100 % 10, 48 + y.toNat/10 % 10,
      48 + y.toNat % 10] := by
  unfold pad4
  rw [if_pos ⟨h0, h1⟩]

theorem parse4_pad4 (y : Int) (r : List Nat) (h0 : 0 ≤ y) (h1 : y ≤ 9999) :
    parseDigitsAcc 4 0 (pad4 y ++ r) = some (y.toNat, r) := by
  rw [pad4_eq y h0 h1]
  show parseDigitsAcc 4 0 ((48 + y.toNat/1000) :: (48 + y.toNat/100 % 10)
    :: (48 + y.toNat/10 % 10) :: (48 + y.toNat % 10) :: r) = some (y.toNat, r)
  have hy : y.toNat ≤ 9999 := by omega
  have k1 : isDigit (48 + y.toNat/1000) = true := by unfold isDigit; simp; omega
  have k2 : isDigit (48 + y.toNat/100 % 10) = true := by unfold isDigit; simp; omega
  have k3 : isDigit (48 + y.toNat/10 % 10) = true := by unfold isDigit; simp; omega
  have k4 : isDigit (48 + y.toNat % 10) = true := by unfold isDigit; simp; omega
  rw [parseDigitsAcc_cons, if_pos k1, parseDigitsAcc_cons, if_pos k2,
    parseDigitsAcc_cons, if_pos k3, parseDigitsAcc_cons, if_pos k4]
  show some ((((0*10 + (48 + y.toNat/1000 - 48))*10 + (48 + y.toNat/100 % 10 - 48))*10
    + (48 + y.toNat/10 % 10 - 48))*10 + (48 + y.toNat % 10 - 48), r) = some (y.toNat, r)
  have e : (((0*10 + (48 + y.toNat/1000 - 48))*10 + (48 + y.toNat/100 % 10 - 48))*10
    + (48 + y.toNat/10 % 10 - 48))*10 + (48 + y.toNat % 10 - 48) = y.toNat := by omega
  rw [e]

theorem parseName_wday (w : Nat) (hw : w < 7) (r : List Nat) :
    parseName wdayTable (wdayAbb w ++ r) = some (w, r) := by
  interval_cases w <;> rfl

theorem parseName_mon (m : Nat) (h1 : 1 ≤ m) (h2 : m ≤ 12) (r : List Nat) :
    parseName monTable (monAbb m ++ r) = some (m, r) := by
  interval_cases m <;> rfl

theorem parseHMS_rt (h mi s : Nat) (r : List Nat) (hh : h ≤ 99) (hmi : mi ≤ 99)
    (hs : s ≤ 99) :
    parseHMS (pad2 h ++ (str ":" ++ (pad2 mi ++ (str ":" ++ (pad2 s ++ r)))))
      = some (h, mi, s, r) := by
  unfold parseHMS
  rw [parse2_pad2 h _ hh]
  simp only []
  rw [takeLit_append]
  simp only []
  rw [parse2_pad2 mi _ hmi]
  simp only []
  rw [takeLit_append]
  simp only []
  rw [parse2_pad2 s _ hs]

theorem parse1123Core_rt (w d mo h mi sec : Nat) (y : Int) (r : List Nat)
    (hw : w < 7) (hd1 : 1 ≤ d) (hd2 : d ≤ 31) (hmo1 : 1 ≤ mo) (hmo2 : mo ≤ 12)
    (hy0 : 0 ≤ y) (hy9 : y ≤ 9999) (hh : h ≤ 23) (hmi : mi ≤ 59) (hsec : sec ≤ 59) :
    parse1123Core (wdayAbb w ++ (str ", " ++ (pad2 d ++ (str " " ++ (monAbb mo
      ++ (str " " ++ (pad4 y ++ (str " " ++ (pad2 h ++ (str ":" ++ (pad2 mi
      ++ (str ":" ++ (pad2 sec ++ r)))))))))))))
      = some (⟨sec, mi, h, d, mo, y, w, 0⟩, r) := by
  unfold parse1123Core
  rw [parseName_wday w hw]
  simp only []
  rw [takeLit_append]
  simp only []
  rw [parse2_pad2 d _ (by omega)]
  simp only []
  rw [takeLit_append]
  simp only []
  rw [parseName_mon mo hmo1 hmo2]
  simp only []
  rw [takeLit_append]
  simp only []
  rw [parse4_pad4 y _ hy0 hy9]
  simp only []
  rw [takeLit_append]
  simp only []
  rw [parseHMS_rt h mi sec r (by omega) (by omega) (by omega)]
  simp only []
  rw [if_pos (show validDHMS d h mi sec = true by unfold validDHMS; simp; omega)]
  rw [show ((y.toNat : Int)) = y from by omega]

/-! ### The canonical encoding is ASCII -/

theorem wdayAbb_ascii (w : Nat) : ∀ c ∈ wdayAbb w, c ≤ 127 := by
  match w with
  | 0 => decide
  | 1 => decide
  | 2 => decide
  | 3 => decide
  | 4 => decide
  | 5 => decide
  | 6 => decide
  | n+7 =>
    intro c hc
    rw [show wdayAbb (n+7) = [] from rfl] at hc
    simp at hc

theorem monAbb_ascii (m : Nat) : ∀ c ∈ monAbb m, c ≤ 127 := by
  match m with
  | 0 => decide
  | 1 => decide
  | 2 => decide
  | 3 => decide
  | 4 => decide
  | 5 => decide
  | 6 => decide
  | 7 => decide
  | 8 => decide
  | 9 => decide
  | 10 => decide
  | 11 => decide
  | 12 => decide
  | n+13 =>
    intro c hc
    rw [show monAbb (n+13) = [] from rfl] at hc
    simp at hc

theorem pad2_ascii (n : Nat) : ∀ c ∈ pad2 n, c ≤ 127 := by
  unfold pad2
  split
  · next h =>
    intro c hc
    simp at hc
    rcases hc with hc | hc <;> omega
  · exact uintToDec_ascii n

theorem pad4_ascii (y : Int) : ∀ c ∈ pad4 y, c ≤ 127 := by
  unfold pad4
  split
  · next h =>
    intro c hc
    simp at hc
    have : y.toNat ≤ 9999 := by omega
    rcases hc with hc | hc | hc | hc <;> omega
  · split
    · intro c hc
      simp at hc
      rcases hc with hc | hc
      · omega
      · exact uintToDec_ascii _ c hc
    · exact uintToDec_ascii _

theorem fmt1123_ascii (u : Tm) : ∀ c ∈ fmt1123 u, c ≤ 127 := by
  unfold fmt1123
  simp only [List.forall_mem_append]
  repeat' apply And.intro
  exacts [wdayAbb_ascii _, by decide, pad2_ascii _, by decide, monAbb_ascii _, by decide,
    pad4_ascii _, by decide, pad2_ascii _, by decide, pad2_ascii _, by decide,
    pad2_ascii _, by decide]

/-! ### The canonical encoding is accepted by grammar 1 -/

theorem fmt1123_chain (u : Tm) :
    fmt1123 u = wdayAbb u.tm_wday ++ (str ", " ++ (pad2 u.tm_mday ++ (str " "
      ++ (monAbb u.tm_mon ++ (str " " ++ (pad4 u.tm_year ++ (str " "
      ++ (pad2 u.tm_hour ++ (str ":" ++ (pad2 u.tm_min ++ (str ":"
      ++ (pad2 u.tm_sec ++ str " GMT")))))))))))) := by
  unfold fmt1123
  simp [List.append_assoc]

theorem parse1123Z_fmt (w d mo h mi sec : Nat) (y : Int)
    (hw : w < 7) (hd1 : 1 ≤ d) (hd2 : d ≤ 31) (hmo1 : 1 ≤ mo) (hmo2 : mo ≤ 12)
    (hy0 : 0 ≤ y) (hy9 : y ≤ 9999) (hh : h ≤ 23) (hmi : mi ≤ 59) (hsec : sec ≤ 59) :
    parse1123Z (fmt1123 ⟨sec, mi, h, d, mo, y, w, 0⟩)
      = some ⟨sec, mi, h, d, mo, y, w, 0⟩ := by
  rw [fmt1123_chain]
  simp only []
  unfold parse1123Z
  rw [parse1123Core_rt w d mo h mi sec y (str " GMT") hw hd1 hd2 hmo1 hmo2 hy0 hy9 hh hmi hsec]
  rfl

theorem Tm_parse_fmt (t : Tm) (h0 : -62167219200 ≤ toInstant t)
    (h1 : toInstant t < 253402300800) :
    Tm.parse_header [Tm.fmt_header t] = some (Tm.to_utc t) := by
  obtain ⟨hsec, hmin, hhour, hd1, hd31, hm1, hm12, hy0, hy9, hwd, hoff⟩ :=
    civilFromInstant_ranges (toInstant t) h0 h1
  have heta : civilFromInstant (toInstant t)
      = (⟨(civilFromInstant (toInstant t)).tm_sec, (civilFromInstant (toInstant t)).tm_min,
         (civilFromInstant (toInstant t)).tm_hour, (civilFromInstant (toInstant t)).tm_mday,
         (civilFromInstant (toInstant t)).tm_mon, (civilFromInstant (toInstant t)).tm_year,
         (civilFromInstant (toInstant t)).tm_wday, 0⟩ : Tm) := by
    rw [← hoff]
  have hascii : ∀ c ∈ Tm.fmt_header t, c ≤ 127 := fmt1123_ascii _
  unfold Tm.parse_header
  rw [show require_single_field [Tm.fmt_header t] = some (Tm.fmt_header t) from rfl]
  simp only []
  rw [utf8Decode_ascii _ hascii]
  simp only []
  rw [show Tm.fmt_header t = fmt1123 (civilFromInstant (toInstant t)) from rfl]
  rw [heta]
  rw [parse1123Z_fmt _ _ _ _ _ _ _ (by omega) hd1 hd31 hm1 hm12 hy0 hy9 hhour hmin hsec]
  simp only []
  rw [← heta]
  rfl

/-! ### Decimal strings never match a date grammar -/

theorem parseName_head_notin (tbl : List (List Nat × Nat)) (c : Nat) (cs : List Nat)
    (h : ∀ p ∈ tbl, ∃ l ls, p.1 = l :: ls ∧ c ≠ l) :
    parseName tbl (c :: cs) = none := by
  induction tbl with
  | nil => rfl
  | cons p tl ih =>
    obtain ⟨nm, v⟩ := p
    obtain ⟨l, ls, hp, hne⟩ := h (nm, v) (by simp)
    show (match takeLit nm (c :: cs) with
          | some rest => some (v, rest)
          | none => parseName tl (c :: cs)) = none
    simp only [] at hp
    rw [hp, takeLit_ne_head _ _ _ _ hne]
    exact ih (fun q hq => h q (by simp [hq]))

theorem parseName_wday_digit (c : Nat) (cs : List Nat) (h48 : 48 ≤ c) (h57 : c ≤ 57) :
    parseName wdayTable (c :: cs) = none := by
  apply parseName_head_notin
  intro p hp
  fin_cases hp
  · exact ⟨83, str "un", rfl, by omega⟩
  · exact ⟨77, str "on", rfl, by omega⟩
  · exact ⟨84, str "ue", rfl, by omega⟩
  · exact ⟨87, str "ed", rfl, by omega⟩
  · exact ⟨84, str "hu", rfl, by omega⟩
  · exact ⟨70, str "ri", rfl, by omega⟩
  · exact ⟨83, str "at", rfl, by omega⟩

theorem parseName_wdayFull_digit (c : Nat) (cs : List Nat) (h48 : 48 ≤ c) (h57 : c ≤ 57) :
    parseName wdayFullTable (c :: cs) = none := by
  apply parseName_head_notin
  intro p hp
  fin_cases hp
  · exact ⟨83, str "unday", rfl, by omega⟩
  · exact ⟨77, str "onday", rfl, by omega⟩
  · exact ⟨84, str "uesday", rfl, by omega⟩
  · exact ⟨87, str "ednesday", rfl, by omega⟩
  · exact ⟨84, str "hursday", rfl, by omega⟩
  · exact ⟨70, str "riday", rfl, by omega⟩
  · exact ⟨83, str "aturday", rfl, by omega⟩

theorem parse1123Core_digit (c : Nat) (cs : List Nat) (h48 : 48 ≤ c) (h57 : c ≤ 57) :
    parse1123Core (c :: cs) = none := by
  unfold parse1123Core
  rw [parseName_wday_digit c cs h48 h57]

theorem parse1123Z_digit (c : Nat) (cs : List Nat) (h48 : 48 ≤ c) (h57 : c ≤ 57) :
    parse1123Z (c :: cs) = none := by
  unfold parse1123Z
  rw [parse1123Core_digit c cs h48 h57]

theorem parse1123z_digit (c : Nat) (cs : List Nat) (h48 : 48 ≤ c) (h57 : c ≤ 57) :
    parse1123z (c :: cs) = none := by
  unfold parse1123z
  rw [parse1123Core_digit c cs h48 h57]

theorem parse850_digit (c : Nat) (cs : List Nat) (h48 : 48 ≤ c) (h57 : c ≤ 57) :
    parse850 (c :: cs) = none := by
  unfold parse850
  rw [parseName_wdayFull_digit c cs h48 h57]

theorem parseAsctime_digit (c : Nat) (cs : List Nat) (h48 : 48 ≤ c) (h57 : c ≤ 57) :
    parseAsctime (c :: cs) = none := by
  unfold parseAsctime
  rw [parseName_wday_digit c cs h48 h57]

theorem Tm_parse_header_digit (l : List Nat) (c : Nat) (cs : List Nat)
    (hl : l = c :: cs) (h48 : 48 ≤ c) (h57 : c ≤ 57) (hascii : ∀ x ∈ l, x ≤ 127) :
    Tm.parse_header [l] = none := by
  unfold Tm.parse_header
  rw [show require_single_field [l] = some l from rfl]
  simp only []
  rw [utf8Decode_ascii _ hascii]
  simp only []
  rw [hl, parse1123Z_digit c cs h48 h57, parse1123z_digit c cs h48 h57,
    parse850_digit c cs h48 h57, parseAsctime_digit c cs h48 h57]

theorem uintToDec_head_digit (n : Nat) :
    ∃ c cs, uintToDec n = c :: cs ∧ 48 ≤ c ∧ c ≤ 57 := by
  cases hn : uintToDec n with
  | nil =>
    exfalso
    unfold uintToDec at hn
    split at hn
    · simp at hn
    · next h => exact natDigits_ne_nil n h hn
  | cons c cs =>
    refine ⟨c, cs, rfl, ?_⟩
    have := uintToDec_digits n c (by rw [hn]; simp)
    unfold isDigit at this
    simp at this
    omega

theorem Tm_parse_header_uintToDec (n : Nat) : Tm.parse_header [uintToDec n] = none := by
  obtain ⟨c, cs, hn, h48, h57⟩ := uintToDec_head_digit n
  exact Tm_parse_header_digit _ c cs hn h48 h57 (uintToDec_ascii n)

theorem uint_rt (n : Nat) (h : n < uintBound) :
    uint_parse_header [uint_fmt_header n] = some n := by
  unfold uint_parse_header uint_fmt_header
  rw [show require_single_field [uintToDec n] = some (uintToDec n) from rfl]
  simp only []
  rw [utf8Decode_ascii _ (uintToDec_ascii n)]
  simp only []
  exact parseUintStr_uintToDec n h

theorem retry_delta_rt (n : Nat) (h : n < uintBound) :
    RetryAfter.parse_header [uint_fmt_header n] = some (RetryAfter.DeltaRA n) := by
  unfold RetryAfter.parse_header
  rw [show require_single_field [uint_fmt_header n] = some (uint_fmt_header n) from rfl]
  simp only []
  rw [show uint_fmt_header n = uintToDec n from rfl]
  rw [Tm_parse_header_uintToDec n]
  simp only []
  rw [show uintToDec n = uint_fmt_header n from rfl]
  rw [uint_rt n h]

/-! ### Small extraction facts -/

theorem require_single_field_eq_none (raw : List (List Nat)) (h : raw.length ≠ 1) :
    require_single_field raw = none := by
  match raw with
  | [] => rfl
  | [x] => simp at h
  | x :: y :: t => rfl

theorem parseUintStr_lt (s : List Nat) (n : Nat) (h : parseUintStr s = some n) :
    n < uintBound := by
  unfold parseUintStr at h
  split at h
  · simp at h
  · split at h
    · split at h
      · next hlt =>
        rw [Option.some.injEq] at h
        omega
      · simp at h
    · simp at h

theorem uint_parse_header_lt (raw : List (List Nat)) (n : Nat)
    (h : uint_parse_header raw = some n) : n < uintBound := by
  unfold uint_parse_header at h
  split at h
  · simp at h
  · split at h
    · simp at h
    · exact parseUintStr_lt _ _ h

theorem retry_delta_lt (raw : List (List Nat)) (n : Nat)
    (h : RetryAfter.parse_header raw = some (RetryAfter.DeltaRA n)) : n < uintBound := by
  unfold RetryAfter.parse_header at h
  split at h
  · simp at h
  · split at h
    · simp at h
    · split at h
      · next m heq =>
        rw [Option.some.injEq, RetryAfter.DeltaRA.injEq] at h
        subst h
        exact uint_parse_header_lt _ _ heq
      · simp at h

/-- A timestamp is valid when its instant lies within years 0–9999, the
window the canonical four-digit-year wire form can represent
(`-62167219200` is 0000-01-01T00:00:00Z, `253402300800` is
10000-01-01T00:00:00Z). -/
def ValidTm (t : Tm) : Prop :=
  -62167219200 ≤ toInstant t ∧ toInstant t < 253402300800

/-! ### Claims -/

/-- Claim C1, counterexample: a date decoded from the RFC 822/1123
numeric-offset grammar (`"Thu, 01 Dec 1994 16:00:00 +0100"`) is obtained
from a successful decode, yet decoding its canonical re-encoding does not
give it back structurally: encoding normalizes to UTC
(`"Thu, 01 Dec 1994 15:00:00 GMT"`), so the re-decoded value has hour 15
and offset 0 where the original had hour 16 and offset +3600. -/
theorem C1_counterexample :
    Tm.parse_header [str "Thu, 01 Dec 1994 16:00:00 +0100"]
      = some ⟨0, 0, 16, 1, 12, 1994, 4, 3600⟩
    ∧ Tm.parse_header [Tm.fmt_header ⟨0, 0, 16, 1, 12, 1994, 4, 3600⟩]
      ≠ some ⟨0, 0, 16, 1, 12, 1994, 4, 3600⟩ := by
  constructor
  · decide
  · decide

/-- Claim C1, amended: `decode (encode v) = v` holds structurally for
`uint` values and for `RetryAfter` deltas; for date-based values (a
decoded `Tm`, or a `RetryAfter` date) whose instant is representable in
the canonical four-digit-year form, decoding the canonical encoding
yields the UTC normalization `to_utc v` — the same instant, and `v`
itself exactly when `v` is already in canonical UTC form. -/
theorem C1_roundtrip_amended :
    (∀ raw n, uint_parse_header raw = some n →
      uint_parse_header [uint_fmt_header n] = some n)
    ∧ (∀ raw t, Tm.parse_header raw = some t →
        -62167219200 ≤ toInstant t → toInstant t < 253402300800 →
        Tm.parse_header [Tm.fmt_header t] = some (Tm.to_utc t)
          ∧ toInstant (Tm.to_utc t) = toInstant t)
    ∧ (∀ raw n, RetryAfter.parse_header raw = some (RetryAfter.DeltaRA n) →
        RetryAfter.parse_header [RetryAfter.fmt_header (RetryAfter.DeltaRA n)]
          = some (RetryAfter.DeltaRA n))
    ∧ (∀ raw t, RetryAfter.parse_header raw = some (RetryAfter.DateRA t) →
        -62167219200 ≤ toInstant t → toInstant t < 253402300800 →
        RetryAfter.parse_header [RetryAfter.fmt_header (RetryAfter.DateRA t)]
          = some (RetryAfter.DateRA (Tm.to_utc t))) := by
  refine ⟨?_, ?_, ?_, ?_⟩
  · intro raw n h
    exact uint_rt n (uint_parse_header_lt raw n h)
  · intro raw t _ h0 h1
    exact ⟨Tm_parse_fmt t h0 h1, civilFromInstant_inv _⟩
  · intro raw n h
    exact retry_delta_rt n (retry_delta_lt raw n h)
  · intro raw t _ h0 h1
    show RetryAfter.parse_header [Tm.fmt_header t] = _
    unfold RetryAfter.parse_header
    rw [show require_single_field [Tm.fmt_header t] = some (Tm.fmt_header t) from rfl]
    simp only []
    rw [Tm_parse_fmt t h0 h1]

/-- Claim C1, witness: concrete instances of the amended round trips. -/
theorem C1_witness :
    uint_parse_header [uint_fmt_header 120] = some 120
    ∧ RetryAfter.parse_header [RetryAfter.fmt_header (RetryAfter.DeltaRA 42)]
      = some (RetryAfter.DeltaRA 42) :=
  ⟨C1_roundtrip_amended.1 [str "120"] 120 (by decide),
   C1_roundtrip_amended.2.2.1 [str "42"] 42 (by decide)⟩

/-- Claim C2: `Expires` decode of any single field is total — it returns
`ExpiresDate t` when the date codec accepts the field and `Past`
otherwise, and is never absent on a singleton; it is absent exactly on
sets of zero or several fields; in particular `[b"bogus"]` gives
`Past`. -/
theorem C2_expires_total :
    (∀ b, Expires.parse_header [b]
      = match Tm.parse_header [b] with
        | some t => some (Expires.ExpiresDate t)
        | none => some Expires.Past)
    ∧ (∀ b, (Expires.parse_header [b]).isSome = true)
    ∧ (∀ raw, raw.length ≠ 1 → Expires.parse_header raw = none)
    ∧ Expires.parse_header [str "bogus"] = some Expires.Past := by
  have key : ∀ b, Expires.parse_header [b]
      = match Tm.parse_header [b] with
        | some t => some (Expires.ExpiresDate t)
        | none => some Expires.Past := by
    intro b
    unfold Expires.parse_header
    rw [show require_single_field [b] = some b from rfl]
  refine ⟨key, ?_, ?_, by decide⟩
  · intro b
    rw [key b]
    cases Tm.parse_header [b] <;> rfl
  · intro raw h
    unfold Expires.parse_header
    rw [require_single_field_eq_none raw h]

/-- Claim C2, witness: the empty set has length other than one and
decodes to absent. -/
theorem C2_witness :
    Expires.parse_header ([] : List (List Nat)) = none :=
  C2_expires_total.2.2.1 [] (by decide)

/-- Claim C3: `Tm` decode of a single field is absent when the bytes are
not valid UTF-8; otherwise the four grammars are attempted in the fixed
order RFC 1123 with literal zone, RFC 1123 with numeric offset, RFC 850,
asctime — the first match wins and the result is the last grammar's
outcome when the first three fail. -/
theorem C3_grammar_order : ∀ b : List Nat,
    (utf8Decode b = none → Tm.parse_header [b] = none)
    ∧ (∀ s, utf8Decode b = some s →
        (∀ t, parse1123Z s = some t → Tm.parse_header [b] = some t)
        ∧ (parse1123Z s = none →
            ∀ t, parse1123z s = some t → Tm.parse_header [b] = some t)
        ∧ (parse1123Z s = none → parse1123z s = none →
            ∀ t, parse850 s = some t → Tm.parse_header [b] = some t)
        ∧ (parse1123Z s = none → parse1123z s = none → parse850 s = none →
            Tm.parse_header [b] = parseAsctime s)) := by
  intro b
  have hsingle : require_single_field [b] = some b := rfl
  constructor
  · intro h
    unfold Tm.parse_header
    rw [hsingle]
    simp only []
    rw [h]
  · intro s hs
    refine ⟨?_, ?_, ?_, ?_⟩
    · intro t h1
      unfold Tm.parse_header
      rw [hsingle]
      simp only []
      rw [hs]
      simp only []
      rw [h1]
    · intro h1 t h2
      unfold Tm.parse_header
      rw [hsingle]
      simp only []
      rw [hs]
      simp only []
      rw [h1, h2]
    · intro h1 h2 t h3
      unfold Tm.parse_header
      rw [hsingle]
      simp only []
      rw [hs]
      simp only []
      rw [h1, h2, h3]
    · intro h1 h2 h3
      unfold Tm.parse_header
      rw [hsingle]
      simp only []
      rw [hs]
      simp only []
      rw [h1, h2, h3]

/-- Claim C3, witness: invalid UTF-8 decodes to absent, and a canonical
RFC 1123 date is accepted by the first grammar. -/
theorem C3_witness :
    Tm.parse_header [([255] : List Nat)] = none
    ∧ Tm.parse_header [str "Thu, 01 Dec 1994 16:00:00 GMT"]
      = some ⟨0, 0, 16, 1, 12, 1994, 4, 0⟩ :=
  ⟨(C3_grammar_order ([255] : List Nat)).1 (by decide),
   ((C3_grammar_order _).2 (str "Thu, 01 Dec 1994 16:00:00 GMT") (by decide)).1
     ⟨0, 0, 16, 1, 12, 1994, 4, 0⟩ (by decide)⟩

/-- Claim C4: for every `Tm`, encoding first converts to UTC — the
normalized value has offset 0 and denotes the same instant — and then
emits grammar 1's canonical pattern
`"Weekday, DD Mon YYYY HH:MM:SS GMT"` of the normalized fields,
regardless of the grammar or zone the value came from. -/
theorem C4_encode_canonical : ∀ t : Tm,
    Tm.fmt_header t = fmt1123 (Tm.to_utc t)
    ∧ Tm.to_utc t = civilFromInstant (toInstant t)
    ∧ (Tm.to_utc t).tm_gmtoff = 0
    ∧ toInstant (Tm.to_utc t) = toInstant t
    ∧ Tm.fmt_header t
      = wdayAbb (Tm.to_utc t).tm_wday ++ (str ", " ++ (pad2 (Tm.to_utc t).tm_mday
        ++ (str " " ++ (monAbb (Tm.to_utc t).tm_mon ++ (str " "
        ++ (pad4 (Tm.to_utc t).tm_year ++ (str " " ++ (pad2 (Tm.to_utc t).tm_hour
        ++ (str ":" ++ (pad2 (Tm.to_utc t).tm_min ++ (str ":"
        ++ (pad2 (Tm.to_utc t).tm_sec ++ str " GMT")))))))))))) :=
  fun t => ⟨rfl, rfl, rfl, civilFromInstant_inv _, fmt1123_chain (Tm.to_utc t)⟩

/-- Claim C5: `RetryAfter` decode of a single field tries the date codec
first (`DateRA`), falls back to the unsigned integer codec (`DeltaRA`)
only when the date codec fails, and is absent when both fail; in
particular `[b"-42"]` decodes to absent. -/
theorem C5_retry_order :
    (∀ b, RetryAfter.parse_header [b]
      = match Tm.parse_header [b] with
        | some t => some (RetryAfter.DateRA t)
        | none =>
          match uint_parse_header [b] with
          | some n => some (RetryAfter.DeltaRA n)
          | none => none)
    ∧ RetryAfter.parse_header [str "-42"] = none := by
  constructor
  · intro b
    unfold RetryAfter.parse_header
    rw [show require_single_field [b] = some b from rfl]
  · decide

/-- Claim C6: for every header value type, a raw field set with zero or
at least two fields decodes to absent — the single-field check precedes
any byte interpretation, and even `Expires` is absent (not `Past`). -/
theorem C6_cardinality : ∀ raw : List (List Nat), raw.length ≠ 1 →
    uint_parse_header raw = none ∧ Tm.parse_header raw = none
    ∧ Expires.parse_header raw = none ∧ RetryAfter.parse_header raw = none := by
  intro raw h
  have hs := require_single_field_eq_none raw h
  refine ⟨?_, ?_, ?_, ?_⟩
  · unfold uint_parse_header
    rw [hs]
  · unfold Tm.parse_header
    rw [hs]
  · unfold Expires.parse_header
    rw [hs]
  · unfold RetryAfter.parse_header
    rw [hs]

/-- Claim C6, witness: two fields give absent for `RetryAfter`, zero
fields give absent (not `Past`) for `Expires`. -/
theorem C6_witness :
    RetryAfter.parse_header [str "42", str "24"] = none
    ∧ Expires.parse_header ([] : List (List Nat)) = none :=
  ⟨(C6_cardinality [str "42", str "24"] (by decide)).2.2.2,
   (C6_cardinality [] (by decide)).2.2.1⟩

/-- Claim C7: `uint` decode of a single field validates UTF-8 and then
parses the text as an unsigned base-10 integer: absent on invalid UTF-8,
on the empty string, on any non-digit character (hence on a leading `+`
or `-`), and on overflow of the 64-bit width; otherwise it returns the
base-10 value of the digit string. -/
theorem C7_uint_decode :
    (∀ b, uint_parse_header [b]
      = match utf8Decode b with
        | none => none
        | some s => parseUintStr s)
    ∧ (∀ s, parseUintStr s
        = if s.isEmpty then none
          else if s.all isDigit then
            if digitsVal s < uintBound then some (digitsVal s) else none
          else none)
    ∧ uint_parse_header [([255] : List Nat)] = none
    ∧ uint_parse_header [str ""] = none
    ∧ uint_parse_header [str "+1"] = none
    ∧ uint_parse_header [str "-1"] = none
    ∧ uint_parse_header [str "1a"] = none
    ∧ uint_parse_header [str "18446744073709551616"] = none
    ∧ uint_parse_header [str "42"] = some 42 := by
  refine ⟨?_, fun _ => rfl, by decide, by decide, by decide, by decide, by decide,
    by decide, by decide⟩
  intro b
  unfold uint_parse_header
  rw [show require_single_field [b] = some b from rfl]

/-- Claim C8: for every valid timestamp, decoding the single-field set
holding its canonical grammar-1 encoding succeeds and yields its UTC
normalization — a value denoting the same instant under UTC
comparison. -/
theorem C8_canonical_roundtrip : ∀ t : Tm, ValidTm t →
    Tm.parse_header [Tm.fmt_header t] = some (Tm.to_utc t)
    ∧ toInstant (Tm.to_utc t) = toInstant t := by
  intro t h
  exact ⟨Tm_parse_fmt t h.1 h.2, civilFromInstant_inv _⟩

/-- Claim C8, witness: the canonical encoding of 1994-12-01T16:00:00Z
round-trips. -/
theorem C8_witness :
    Tm.parse_header [Tm.fmt_header ⟨0, 0, 16, 1, 12, 1994, 4, 0⟩]
      = some (Tm.to_utc ⟨0, 0, 16, 1, 12, 1994, 4, 0⟩)
    ∧ toInstant (Tm.to_utc ⟨0, 0, 16, 1, 12, 1994, 4, 0⟩)
      = toInstant ⟨0, 0, 16, 1, 12, 1994, 4, 0⟩ :=
  C8_canonical_roundtrip ⟨0, 0, 16, 1, 12, 1994, 4, 0⟩ ⟨by decide, by decide⟩

/-- Claim C9: `Expires` encode writes exactly the single byte `"0"` (code
48) for `Past` and exactly the date codec's bytes for `ExpiresDate t`;
in the model encoding is total, matching the spec's "fails only on an
I/O error from the sink". -/
theorem C9_expires_encode :
    Expires.fmt_header Expires.Past = str "0"
    ∧ str "0" = [48]
    ∧ (∀ t, Expires.fmt_header (Expires.ExpiresDate t) = Tm.fmt_header t) :=
  ⟨rfl, rfl, fun _ => rfl⟩

/-- Claim C10: the canonical decimal encoding of any `uint` delta never
matches any of the four date grammars (every grammar requires a weekday
letter first, a decimal starts with a digit), so despite the date-first
priority `RetryAfter` decode maps an encoded delta back to `DeltaRA n`. -/
theorem C10_delta_roundtrip : ∀ n : Nat, n < uintBound →
    Tm.parse_header [uint_fmt_header n] = none
    ∧ RetryAfter.parse_header [uint_fmt_header n] = some (RetryAfter.DeltaRA n)
    ∧ RetryAfter.fmt_header (RetryAfter.DeltaRA n) = uint_fmt_header n := by
  intro n h
  exact ⟨Tm_parse_header_uintToDec n, retry_delta_rt n h, rfl⟩

/-- Claim C10, witness: the delta 120 round-trips through its decimal
encoding. -/
theorem C10_witness :
    Tm.parse_header [uint_fmt_header 120] = none
    ∧ RetryAfter.parse_header [uint_fmt_header 120] = some (RetryAfter.DeltaRA 120)
    ∧ RetryAfter.fmt_header (RetryAfter.DeltaRA 120) = uint_fmt_header 120 :=
  C10_delta_roundtrip 120 (by decide)
